import Mathlib

/-!
Verification of the spaced-repetition scheduler of the StudyGenie backend.

The repository contains two backend trees that implement flashcard
scheduling:

* family A: `app/services/spaced_repetition.py` (SM-2, tuple-returning
  `calculate_next_review`), its ORM model `app/database_models.py`
  (`Flashcard` with `ease_factor` Float default 2.5, `interval` Integer
  default 1, `repetitions` Integer default 0, `next_review` DateTime
  default `utcnow`), and its router `app/routers/study.py`;
* family B: `app/api/study.py` with ORM model
  `app/models/study_material.py` (`Flashcard` with nullable
  `next_review`, `review_interval`, string-encoded `ease_factor`,
  `review_count`).  The service it calls (`quality_from_performance`,
  dict-returning `calculate_next_review`) is not in the source tree;
  only its caller is.

Modelling conventions:
* Python floats are modelled as exact rationals (`ℚ`); the SM-2
  constants 0.1, 0.08, 0.02, 1.3, 2.5 are exact decimals.
* Timestamps are modelled at calendar-day granularity as integers
  (`ℤ` = day number); `datetime.utcnow()` becomes an explicit `now`
  parameter, `timedelta(days = n)` becomes `+ n`.  The several
  `utcnow()` calls inside one request handler are modelled as the same
  day-granularity instant.
* SQLAlchemy queries over a table are modelled as functions over a
  `List` snapshot; `ORDER BY` is modelled as a stable sort
  (`List.insertionSort`); SQL `NULL <= now` is three-valued, hence not
  satisfied, so rows with `next_review` NULL fail the due filter.
* `math.ceil` on a rational is `Int.ceil`.
-/

namespace StudyGenie

/-- Family A flashcard row (`app/database_models.py`, class `Flashcard`):
only the scheduling columns are modelled (`ease_factor`, `interval`,
`repetitions`, `next_review`, `created_at`); the text columns
(`front`, `back`, `topic`, `difficulty`) play no role in any claim. -/
structure Flashcard where
  easeFactor : ℚ
  interval : ℤ
  repetitions : ℕ
  nextReview : Option ℤ
  createdAt : ℤ
deriving DecidableEq, Repr

/-- Family A review-log row (`app/database_models.py`,
class `FlashcardReview`): quality and timestamp. -/
structure FlashcardReview where
  quality : ℤ
  reviewedAt : ℤ
deriving DecidableEq, Repr

/-- Row construction with the column defaults of
`app/database_models.py` (`ease_factor=2.5`, `interval=1`,
`repetitions=0`, `next_review=datetime.utcnow`), evaluated at the
creation instant `now`. -/
def mkFlashcard (now : ℤ) : Flashcard :=
  { easeFactor := 5/2
    interval := 1
    repetitions := 0
    nextReview := some now
    createdAt := now }

/-- `SpacedRepetitionService.calculate_next_review`
(`app/services/spaced_repetition.py`): returns the tuple
`(next_review_date, new_repetitions, new_ease_factor, new_interval)`.
`datetime.utcnow()` is the explicit parameter `now`. -/
def calculate_next_review (quality : ℤ) (repetitions : ℕ) (ease_factor : ℚ)
    (interval : ℤ) (now : ℤ) : ℤ × ℕ × ℚ × ℤ :=
  let new_ease_factor : ℚ :=
    ease_factor + (1/10 - ((5 : ℚ) - (quality : ℚ)) * (8/100 + ((5 : ℚ) - (quality : ℚ)) * (2/100)))
  let new_ease_factor : ℚ := max (13/10) new_ease_factor
  let ri : ℕ × ℤ :=
    if quality < 3 then
      (0, 1)
    else if repetitions + 1 = 1 then (repetitions + 1, 1)
    else if repetitions + 1 = 2 then (repetitions + 1, 6)
    else (repetitions + 1, Int.ceil ((interval : ℚ) * new_ease_factor))
  let next_review_date : ℤ := now + ri.2
  (next_review_date, ri.1, new_ease_factor, ri.2)

/-- `SpacedRepetitionService.update_flashcard_review`: applies
`calculate_next_review` to the stored row, writes the four scheduling
columns back, and appends a `FlashcardReview` record stamped with the
same (day-granularity) instant.  The flashcard row is passed in
directly; the `ValueError` raised when the id is unknown belongs to the
persistence lookup, which is outside this model. -/
def update_flashcard_review (card : Flashcard) (quality : ℤ) (now : ℤ) :
    Flashcard × FlashcardReview :=
  let r := calculate_next_review quality card.repetitions card.easeFactor card.interval now
  ({ card with
      nextReview := some r.1
      repetitions := r.2.1
      easeFactor := r.2.2.1
      interval := r.2.2.2 },
   { quality := quality, reviewedAt := now })

/-- `review_flashcard` route (`app/routers/study.py`): rejects a quality
outside `[0, 5]` with HTTP 400 before any state is touched, otherwise
delegates to `update_flashcard_review`. -/
def review_flashcard (card : Flashcard) (quality : ℤ) (now : ℤ) :
    Except String (Flashcard × FlashcardReview) :=
  if quality < 0 ∨ quality > 5 then
    Except.error "Quality must be between 0 and 5"
  else
    Except.ok (update_flashcard_review card quality now)

/-- The SQL due filter of `query_due_cards`
(`Flashcard.next_review <= datetime.utcnow()`): a NULL `next_review`
does not satisfy the comparison (SQL three-valued logic), so such a row
is not selected. -/
def is_due_sql (now : ℤ) (c : Flashcard) : Bool :=
  match c.nextReview with
  | none => false
  | some t => decide (t ≤ now)

/-- Sort key of `ORDER BY Flashcard.next_review`.  The default value is
never consulted on the executed path: the sort runs after the due
filter, which has already discarded every NULL row. -/
def nextReviewKey (c : Flashcard) : ℤ :=
  c.nextReview.getD 0

/-- The comparison relation of `ORDER BY Flashcard.next_review`
(ascending). -/
def nrLE (a b : Flashcard) : Prop :=
  nextReviewKey a ≤ nextReviewKey b

instance : DecidableRel nrLE := fun a b =>
  inferInstanceAs (Decidable (nextReviewKey a ≤ nextReviewKey b))

instance : IsTotal Flashcard nrLE :=
  ⟨fun a b => le_total (nextReviewKey a) (nextReviewKey b)⟩

instance : IsTrans Flashcard nrLE :=
  ⟨fun _ _ _ hab hbc => le_trans hab hbc⟩

/-- `query_due_cards` (`SpacedRepetitionService.get_due_flashcards_query`,
`app/services/spaced_repetition.py`): filter the snapshot by the due
condition, order by `next_review` ascending.  `ORDER BY` over a list
snapshot is modelled as a stable sort. -/
def query_due_cards (cards : List Flashcard) (now : ℤ) : List Flashcard :=
  List.insertionSort nrLE (cards.filter (is_due_sql now))

/-- The spec's `select_due`: the bare query corresponds to
`limit = none`; the router `get_due_flashcards`
(`app/routers/study.py`) applies `.limit(20)`, i.e. `limit = some 20`. -/
def select_due (cards : List Flashcard) (now : ℤ) (limit : Option ℕ) :
    List Flashcard :=
  match limit with
  | none => query_due_cards cards now
  | some n => (query_due_cards cards now).take n

/-- `get_due_flashcards` route (`app/routers/study.py`):
`query_func(db).limit(20).all()`. -/
def get_due_flashcards (cards : List Flashcard) (now : ℤ) : List Flashcard :=
  select_due cards now (some 20)

/-- Python `round(x, 2)` on an exact decimal value: round to the
nearest multiple of 1/100, ties to even (banker's rounding). -/
def round2 (x : ℚ) : ℚ :=
  let y : ℚ := 100 * x
  let f : ℤ := Int.floor y
  let r : ℚ := y - (f : ℚ)
  let n : ℤ :=
    if r < 1/2 then f
    else if 1/2 < r then f + 1
    else if f % 2 = 0 then f else f + 1
  (n : ℚ) / 100

/-- Result record of `get_study_statistics`.  The
`difficulty_distribution` entry is omitted: no claim concerns it and the
`difficulty` column is not modelled. -/
structure StudyStatistics where
  total_cards : ℕ
  due_cards : ℕ
  cards_reviewed_today : ℕ
  average_ease_factor : ℚ
deriving DecidableEq, Repr

/-- `SpacedRepetitionService.get_study_statistics`
(`app/services/spaced_repetition.py`) over a snapshot of the learner's
flashcards and review log.  SQL `AVG` over zero rows is NULL (`none`);
Python `scalar() or 2.5` replaces both `None` and a falsy `0.0` average
by 2.5; the result is then rounded to two decimals by
`round(float(avg_ease), 2)`. -/
def get_study_statistics (cards : List Flashcard)
    (reviews : List FlashcardReview) (now : ℤ) : StudyStatistics :=
  let total_cards := cards.length
  let due_cards := (cards.filter (is_due_sql now)).length
  let cards_reviewed_today :=
    (reviews.filter (fun r => decide (r.reviewedAt = now))).length
  let avg_scalar : Option ℚ :=
    if cards.length = 0 then none
    else some ((cards.map Flashcard.easeFactor).sum / (cards.length : ℚ))
  let avg_ease : ℚ :=
    match avg_scalar with
    | none => 5/2
    | some a => if a = 0 then 5/2 else a
  { total_cards := total_cards
    due_cards := due_cards
    cards_reviewed_today := cards_reviewed_today
    average_ease_factor := round2 avg_ease }

/-- Family B flashcard row (`app/models/study_material.py`, class
`Flashcard`): `next_review` is nullable with no default; only the
columns used by the due filter and the review route are modelled. -/
structure FlashcardB where
  nextReview : Option ℤ
  reviewInterval : ℤ
  reviewCount : ℕ
deriving DecidableEq, Repr

/-- The due filter of the family B `get_flashcards` route
(`app/api/study.py`):
`(Flashcard.next_review.is_(None)) | (Flashcard.next_review <= now)`.
A NULL `next_review` satisfies the first disjunct and is included. -/
def is_due_b (now : ℤ) (c : FlashcardB) : Bool :=
  match c.nextReview with
  | none => true
  | some t => decide (t ≤ now)

/-- `get_flashcards` route (`app/api/study.py`): all flashcards of the
material, restricted to due ones when `due_only` is set; no ordering,
no limit. -/
def get_flashcards (cards : List FlashcardB) (due_only : Bool) (now : ℤ) :
    List FlashcardB :=
  if due_only then cards.filter (is_due_b now) else cards

/-- Confidence tier reported by the family B review route. -/
inductive Confidence where
  | low
  | medium
  | high
deriving DecidableEq, Repr

/-- Modelled from the spec: the family B
`SpacedRepetitionService.quality_from_performance`, called by the
`review_flashcard` route of `app/api/study.py`, is not under the source
tree (only its caller is).  Per spec §4.1 `quality_from_outcome`:
`correct = false` gives 0 unconditionally; otherwise low ↦ 3,
medium ↦ 4, high ↦ 5. -/
def quality_from_performance (correct : Bool) (confidence : Confidence) : ℤ :=
  if correct then
    match confidence with
    | Confidence.low => 3
    | Confidence.medium => 4
    | Confidence.high => 5
  else 0

/-- Family A flashcard states reachable over a card's lifetime: created
with the column defaults at some instant, then mutated only by
`update_flashcard_review`. -/
inductive Reachable : Flashcard → Prop where
  | created (now : ℤ) : Reachable (mkFlashcard now)
  | reviewed (c : Flashcard) (quality now : ℤ) :
      Reachable c → Reachable (update_flashcard_review c quality now).1

end StudyGenie

namespace StudyGenie

/-- The SM-2 ease-factor formula of `calculate_next_review` before the
floor clamp is applied. -/
def ease_formula (ease_factor : ℚ) (quality : ℤ) : ℚ :=
  ease_factor + (1/10 - ((5 : ℚ) - (quality : ℚ)) * (8/100 + ((5 : ℚ) - (quality : ℚ)) * (2/100)))

theorem calculate_next_review_ease (quality : ℤ) (repetitions : ℕ)
    (ease_factor : ℚ) (interval now : ℤ) :
    (calculate_next_review quality repetitions ease_factor interval now).2.2.1
      = max (13/10) (ease_formula ease_factor quality) := by
  simp only [calculate_next_review, ease_formula]

/-- C1: for any starting state and any quality below 3, the returned
repetition count is 0 and the returned interval is 1, independently of
the prior `repetitions` and `interval`; and the returned ease factor is
the clamped value of the step-1 formula, not the unchanged input. -/
theorem fail_branch_resets (quality : ℤ) (repetitions : ℕ) (ease_factor : ℚ)
    (interval now : ℤ) (h0 : 0 ≤ quality) (h3 : quality < 3) :
    (calculate_next_review quality repetitions ease_factor interval now).2.1 = 0
    ∧ (calculate_next_review quality repetitions ease_factor interval now).2.2.2 = 1
    ∧ (calculate_next_review quality repetitions ease_factor interval now).2.2.1
        = max (13/10) (ease_formula ease_factor quality) := by
  refine ⟨?_, ?_, calculate_next_review_ease quality repetitions ease_factor interval now⟩ <;>
    simp [calculate_next_review, if_pos h3]

theorem fail_branch_resets_witness :
    (0:ℤ) ≤ 1 ∧ (1:ℤ) < 3
    ∧ ((calculate_next_review 1 3 (13/5) 16 0).2.1 = 0
      ∧ (calculate_next_review 1 3 (13/5) 16 0).2.2.2 = 1
      ∧ (calculate_next_review 1 3 (13/5) 16 0).2.2.1
          = max (13/10) (ease_formula (13/5) 1)) :=
  ⟨by norm_num, by norm_num, fail_branch_resets 1 3 (13/5) 16 0 (by norm_num) (by norm_num)⟩

/-- C2: for any starting state and any quality in `[3, 5]`, the returned
repetition count is `repetitions + 1`; the returned interval is 1 when
that count is 1, 6 when it is 2, and `⌈interval * ease_factor'⌉`
otherwise, where `ease_factor'` is the updated (returned) ease factor. -/
theorem pass_branch_advances (quality : ℤ) (repetitions : ℕ) (ease_factor : ℚ)
    (interval now : ℤ) (h3 : 3 ≤ quality) (h5 : quality ≤ 5) :
    (calculate_next_review quality repetitions ease_factor interval now).2.1
        = repetitions + 1
    ∧ (repetitions + 1 = 1 →
        (calculate_next_review quality repetitions ease_factor interval now).2.2.2 = 1)
    ∧ (repetitions + 1 = 2 →
        (calculate_next_review quality repetitions ease_factor interval now).2.2.2 = 6)
    ∧ (2 < repetitions + 1 →
        (calculate_next_review quality repetitions ease_factor interval now).2.2.2
          = Int.ceil ((interval : ℚ)
              * (calculate_next_review quality repetitions ease_factor interval now).2.2.1)) := by
  have hq : ¬ quality < 3 := not_lt.mpr h3
  refine ⟨?_, ?_, ?_, ?_⟩ <;>
    · simp only [calculate_next_review, if_neg hq]
      rcases Nat.lt_or_ge repetitions 2 with hr | hr
      · interval_cases repetitions <;> simp
      · have h1 : ¬ repetitions + 1 = 1 := by omega
        have h2 : ¬ repetitions + 1 = 2 := by omega
        simp [h1, h2]

theorem pass_branch_advances_witness :
    (3:ℤ) ≤ 5 ∧ (5:ℤ) ≤ 5
    ∧ ((calculate_next_review 5 2 (5/2) 6 10).2.1 = 2 + 1
      ∧ (2 + 1 = 1 → (calculate_next_review 5 2 (5/2) 6 10).2.2.2 = 1)
      ∧ (2 + 1 = 2 → (calculate_next_review 5 2 (5/2) 6 10).2.2.2 = 6)
      ∧ (2 < 2 + 1 → (calculate_next_review 5 2 (5/2) 6 10).2.2.2
          = Int.ceil ((6 : ℚ) * (calculate_next_review 5 2 (5/2) 6 10).2.2.1))) :=
  ⟨by norm_num, by norm_num, pass_branch_advances 5 2 (5/2) 6 10 (by norm_num) (by norm_num)⟩

/-- C3: for any quality in `[0, 5]` and any starting ease factor at
least 1.3, the returned ease factor equals the clamped step-1 formula
value (no upper bound is applied) and therefore never drops below 1.3. -/
theorem ease_floor_invariant (quality : ℤ) (repetitions : ℕ) (ease_factor : ℚ)
    (interval now : ℤ) (h0 : 0 ≤ quality) (h5 : quality ≤ 5)
    (hef : 13/10 ≤ ease_factor) :
    (calculate_next_review quality repetitions ease_factor interval now).2.2.1
        = max (13/10) (ease_formula ease_factor quality)
    ∧ 13/10 ≤ (calculate_next_review quality repetitions ease_factor interval now).2.2.1 := by
  refine ⟨calculate_next_review_ease quality repetitions ease_factor interval now, ?_⟩
  rw [calculate_next_review_ease quality repetitions ease_factor interval now]
  exact le_max_left _ _

theorem ease_floor_invariant_witness :
    (0:ℤ) ≤ 0 ∧ (0:ℤ) ≤ 5 ∧ (13:ℚ)/10 ≤ 13/10
    ∧ ((calculate_next_review 0 0 (13/10) 1 0).2.2.1
          = max (13/10) (ease_formula (13/10) 0)
      ∧ 13/10 ≤ (calculate_next_review 0 0 (13/10) 1 0).2.2.1) :=
  ⟨by norm_num, by norm_num, by norm_num,
    ease_floor_invariant 0 0 (13/10) 1 0 (by norm_num) (by norm_num) (by norm_num)⟩

/-- C4: a quality outside `[0, 5]` is rejected by the review route with
the HTTP 400 error before any update runs, so no updated schedule is
returned and the stored schedule is untouched. -/
theorem invalid_quality_rejected (card : Flashcard) (quality now : ℤ)
    (h : quality < 0 ∨ 5 < quality) :
    review_flashcard card quality now
        = Except.error "Quality must be between 0 and 5"
    ∧ ∀ result, review_flashcard card quality now ≠ Except.ok result := by
  have he : review_flashcard card quality now
      = Except.error "Quality must be between 0 and 5" := by
    simp only [review_flashcard, gt_iff_lt, if_pos h]
  exact ⟨he, fun result hr => by rw [he] at hr; exact Except.noConfusion hr⟩

theorem invalid_quality_rejected_witness :
    ((7:ℤ) < 0 ∨ (5:ℤ) < 7)
    ∧ (review_flashcard (mkFlashcard 0) 7 0
          = Except.error "Quality must be between 0 and 5"
      ∧ ∀ result, review_flashcard (mkFlashcard 0) 7 0 ≠ Except.ok result) :=
  ⟨Or.inr (by norm_num), invalid_quality_rejected (mkFlashcard 0) 7 0 (Or.inr (by norm_num))⟩

/-- C7: the spec-modelled `quality_from_performance` is a pure total
function that maps incorrect answers to quality 0 for every confidence
tier, and correct answers to 3, 4, 5 for low, medium, high confidence. -/
theorem quality_mapping :
    (∀ confidence, quality_from_performance false confidence = 0)
    ∧ quality_from_performance true Confidence.low = 3
    ∧ quality_from_performance true Confidence.medium = 4
    ∧ quality_from_performance true Confidence.high = 5 := by
  refine ⟨fun confidence => ?_, rfl, rfl, rfl⟩
  cases confidence <;> rfl

/-- C8: after a review with a valid quality, the stored `next_review`
equals the review record's timestamp plus the stored interval, both
taken at the same (day-granularity) instant `now`. -/
theorem next_review_consistent (card : Flashcard) (quality now : ℤ)
    (h0 : 0 ≤ quality) (h5 : quality ≤ 5) :
    (update_flashcard_review card quality now).1.nextReview
        = some ((update_flashcard_review card quality now).2.reviewedAt
            + (update_flashcard_review card quality now).1.interval)
    ∧ (update_flashcard_review card quality now).2.reviewedAt = now := by
  constructor
  · simp only [update_flashcard_review, calculate_next_review]
  · rfl

theorem next_review_consistent_witness :
    (0:ℤ) ≤ 4 ∧ (4:ℤ) ≤ 5
    ∧ ((update_flashcard_review (mkFlashcard 0) 4 0).1.nextReview
          = some ((update_flashcard_review (mkFlashcard 0) 4 0).2.reviewedAt
              + (update_flashcard_review (mkFlashcard 0) 4 0).1.interval)
      ∧ (update_flashcard_review (mkFlashcard 0) 4 0).2.reviewedAt = 0) :=
  ⟨by norm_num, by norm_num, next_review_consistent (mkFlashcard 0) 4 0 (by norm_num) (by norm_num)⟩

/-- C10: every flashcard is created with ease factor 2.5, interval 1,
repetition count 0, and `next_review` set to the creation instant (so a
new card is immediately due); every review writes a concrete
`next_review`; hence `next_review` is never NULL in any reachable
state. -/
theorem next_review_never_null :
    (∀ c, Reachable c → c.nextReview ≠ none)
    ∧ (∀ now, (mkFlashcard now).easeFactor = 5/2
        ∧ (mkFlashcard now).interval = 1
        ∧ (mkFlashcard now).repetitions = 0
        ∧ (mkFlashcard now).nextReview = some now
        ∧ is_due_sql now (mkFlashcard now) = true) := by
  constructor
  · intro c h
    induction h with
    | created now => simp [mkFlashcard]
    | reviewed c quality now _ _ => simp [update_flashcard_review]
  · intro now
    refine ⟨rfl, rfl, rfl, rfl, ?_⟩
    simp [is_due_sql, mkFlashcard]

theorem next_review_never_null_witness :
    (mkFlashcard 0).nextReview ≠ none
    ∧ is_due_sql 0 (mkFlashcard 0) = true :=
  ⟨next_review_never_null.1 (mkFlashcard 0) (Reachable.created 0),
    (next_review_never_null.2 0).2.2.2.2⟩

end StudyGenie

namespace StudyGenie

/-- C5: membership in the due set of the `get_flashcards` route with
`due_only` set: a flashcard of the snapshot is returned exactly when its
`next_review` is unset or at most `now`; one whose `next_review` lies in
the future is excluded. -/
theorem due_set_membership (cards : List FlashcardB) (now : ℤ) (c : FlashcardB)
    (hc : c ∈ cards) :
    (c ∈ get_flashcards cards true now
      ↔ (c.nextReview = none ∨ ∃ t, c.nextReview = some t ∧ t ≤ now))
    ∧ (∀ t, c.nextReview = some t → now < t → c ∉ get_flashcards cards true now) := by
  have hiff : is_due_b now c = true
      ↔ (c.nextReview = none ∨ ∃ t, c.nextReview = some t ∧ t ≤ now) := by
    cases h : c.nextReview with
    | none => simp [is_due_b, h]
    | some t => simp [is_due_b, h]
  have hmem : c ∈ get_flashcards cards true now
      ↔ (c.nextReview = none ∨ ∃ t, c.nextReview = some t ∧ t ≤ now) := by
    rw [← hiff]
    simp [get_flashcards, List.mem_filter, hc]
  refine ⟨hmem, fun t ht hlt hin => ?_⟩
  rcases hmem.mp hin with hnone | ⟨u, hu, hle⟩
  · rw [ht] at hnone; exact Option.noConfusion hnone
  · rw [ht] at hu
    have : u = t := by injection hu.symm
    omega

/-- Family B row with `next_review` unset, used to witness C5. -/
def unsetCardB : FlashcardB :=
  { nextReview := none, reviewInterval := 1, reviewCount := 0 }

/-- Family B row scheduled in the future, used to witness C5. -/
def futureCardB : FlashcardB :=
  { nextReview := some 5, reviewInterval := 1, reviewCount := 0 }

theorem due_set_membership_witness :
    unsetCardB ∈ [unsetCardB, futureCardB]
    ∧ ((unsetCardB ∈ get_flashcards [unsetCardB, futureCardB] true 0
        ↔ (unsetCardB.nextReview = none
            ∨ ∃ t, unsetCardB.nextReview = some t ∧ t ≤ 0))
      ∧ (∀ t, unsetCardB.nextReview = some t → 0 < t →
          unsetCardB ∉ get_flashcards [unsetCardB, futureCardB] true 0)) :=
  ⟨List.mem_cons_self _ _,
    due_set_membership [unsetCardB, futureCardB] 0 unsetCardB (List.mem_cons_self _ _)⟩

/-- Overdue-ness priority of the amended C6: a due card overdue by N
whole days has priority N + 1, computed from its `next_review` alone. -/
def priorityAmended (now : ℤ) (c : Flashcard) : ℤ :=
  now - nextReviewKey c + 1

/-- Descending-priority comparison of the amended C6. -/
def priGE (now : ℤ) (a b : Flashcard) : Prop :=
  priorityAmended now b ≤ priorityAmended now a

instance (now : ℤ) : DecidableRel (priGE now) := fun a b =>
  inferInstanceAs (Decidable (priorityAmended now b ≤ priorityAmended now a))

instance (now : ℤ) : IsTotal Flashcard (priGE now) :=
  ⟨fun a b => le_total (priorityAmended now b) (priorityAmended now a)⟩

instance (now : ℤ) : IsTrans Flashcard (priGE now) :=
  ⟨fun _ _ _ hab hbc => le_trans hbc hab⟩

theorem nrLE_iff_priGE (now : ℤ) (a b : Flashcard) : nrLE a b ↔ priGE now a b := by
  simp only [nrLE, priGE, priorityAmended]
  omega

theorem orderedInsert_congr {α : Type} (r s : α → α → Prop)
    [DecidableRel r] [DecidableRel s] (h : ∀ a b, r a b ↔ s a b) (a : α) :
    ∀ l : List α, l.orderedInsert r a = l.orderedInsert s a
  | [] => rfl
  | b :: l => by
    simp only [List.orderedInsert]
    by_cases hrb : r a b
    · rw [if_pos hrb, if_pos ((h a b).mp hrb)]
    · rw [if_neg hrb, if_neg (fun hs => hrb ((h a b).mpr hs)),
        orderedInsert_congr r s h a l]

theorem insertionSort_congr {α : Type} (r s : α → α → Prop)
    [DecidableRel r] [DecidableRel s] (h : ∀ a b, r a b ↔ s a b) :
    ∀ l : List α, l.insertionSort r = l.insertionSort s
  | [] => rfl
  | b :: l => by
    simp only [List.insertionSort]
    rw [insertionSort_congr r s h l, orderedInsert_congr r s h b]

/-- The amended C6's due selection, written from the amended claim: keep
the due cards, order them by descending overdue-ness priority with ties
broken by stable input order, and keep the first `limit` entries when a
limit is given. -/
def select_due_amended (cards : List Flashcard) (now : ℤ) (limit : Option ℕ) :
    List Flashcard :=
  let ordered := (cards.filter (is_due_sql now)).insertionSort (priGE now)
  match limit with
  | none => ordered
  | some n => ordered.take n

/-- C6 amended: the code's due selection equals the amended ordered
selection (every due card, never-reviewed ones included, is ranked by
descending overdue-ness priority computed from `next_review`, ties in
stable input order, first `limit` entries kept); the output is sorted by
descending priority; and with no limit it is a permutation of the due
subset. -/
theorem due_ordering_amended (cards : List Flashcard) (now : ℤ)
    (limit : Option ℕ) :
    select_due cards now limit = select_due_amended cards now limit
    ∧ List.Pairwise (priGE now) (select_due cards now limit)
    ∧ List.Perm (select_due cards now none) (cards.filter (is_due_sql now)) := by
  have hsort : ∀ l : List Flashcard, l.insertionSort nrLE = l.insertionSort (priGE now) :=
    insertionSort_congr nrLE (priGE now) (fun a b => nrLE_iff_priGE now a b)
  have heq : select_due cards now limit = select_due_amended cards now limit := by
    cases limit with
    | none => simp [select_due, select_due_amended, query_due_cards, hsort]
    | some n => simp [select_due, select_due_amended, query_due_cards, hsort]
  have hp : List.Pairwise (priGE now)
      ((cards.filter (is_due_sql now)).insertionSort (priGE now)) :=
    List.sorted_insertionSort (priGE now) (cards.filter (is_due_sql now))
  refine ⟨heq, ?_, ?_⟩
  · rw [heq]
    cases limit with
    | none => simpa [select_due_amended] using hp
    | some n =>
        exact List.Pairwise.sublist (List.take_sublist n _) hp
  · simpa [select_due, query_due_cards, hsort] using
      List.perm_insertionSort (priGE now) (cards.filter (is_due_sql now))

/-- The priority assignment asserted by the original C6: a card with no
prior review (its `next_review` still equal to the creation instant
written by the column default) has priority 1, the lowest among due
cards; a card overdue by N whole days has priority N + 1. -/
def claim_priority (now : ℤ) (c : Flashcard) : ℤ :=
  if c.nextReview = some c.createdAt then 1 else now - nextReviewKey c + 1

/-- A card created at day 7 and never reviewed: all columns still hold
their defaults. -/
def neverReviewedCard : Flashcard := mkFlashcard 7

/-- A previously reviewed card whose `next_review` (day 9) is one whole
day overdue at day 10. -/
def overdueOneCard : Flashcard :=
  { easeFactor := 5/2, interval := 6, repetitions := 2,
    nextReview := some 9, createdAt := 0 }

/-- C6 counterexample: at `now = 10`, the never-reviewed card (claimed
priority 1, lowest urgency) is returned BEFORE the card overdue by one
whole day (claimed priority 2), because the query orders by raw
`next_review`; so the output is not ordered by descending claimed
priority. -/
theorem due_ordering_counterexample :
    select_due [neverReviewedCard, overdueOneCard] 10 none
        = [neverReviewedCard, overdueOneCard]
    ∧ neverReviewedCard.nextReview = some neverReviewedCard.createdAt
    ∧ claim_priority 10 neverReviewedCard = 1
    ∧ claim_priority 10 overdueOneCard = 2
    ∧ ¬ List.Pairwise (fun a b => claim_priority 10 b ≤ claim_priority 10 a)
        (select_due [neverReviewedCard, overdueOneCard] 10 none) := by
  have heval : select_due [neverReviewedCard, overdueOneCard] 10 none
      = [neverReviewedCard, overdueOneCard] := by rfl
  refine ⟨heval, rfl, rfl, rfl, ?_⟩
  rw [heval]
  intro hpair
  have hchain := (List.pairwise_cons.mp hpair).1 overdueOneCard (by simp)
  norm_num [claim_priority, neverReviewedCard, overdueOneCard, mkFlashcard,
    nextReviewKey] at hchain

/-- The spec's `average_ease_factor`: the arithmetic mean of
`ease_factor` over the snapshot. -/
def average_ease_factor_spec (cards : List Flashcard) : ℚ :=
  (cards.map Flashcard.easeFactor).sum / (cards.length : ℚ)

/-- Three cards whose mean ease factor 38/15 is not representable with
two decimals. -/
def statsCards : List Flashcard :=
  [mkFlashcard 0, mkFlashcard 0, { mkFlashcard 0 with easeFactor := 13/5 }]

/-- C9 counterexample: for eases 2.5, 2.5, 2.6 the mean is 38/15 =
2.5333…, but `get_study_statistics` reports 2.53 (the code applies
`round(·, 2)`), so the reported value is not the arithmetic mean. -/
theorem average_rounding_counterexample :
    (get_study_statistics statsCards [] 0).average_ease_factor = 253/100
    ∧ average_ease_factor_spec statsCards = 38/15
    ∧ (get_study_statistics statsCards [] 0).average_ease_factor
        ≠ average_ease_factor_spec statsCards := by
  have h1 : (get_study_statistics statsCards [] 0).average_ease_factor = 253/100 := by
    norm_num [get_study_statistics, statsCards, mkFlashcard, round2]
  have h2 : average_ease_factor_spec statsCards = 38/15 := by
    norm_num [average_ease_factor_spec, statsCards, mkFlashcard]
  refine ⟨h1, h2, ?_⟩
  rw [h1, h2]
  norm_num

theorem round2_close (x : ℚ) : |round2 x - x| ≤ 1/200 := by
  have hfl : ((⌊(100:ℚ) * x⌋ : ℤ) : ℚ) ≤ 100 * x := Int.floor_le _
  have hfu : (100:ℚ) * x < ((⌊(100:ℚ) * x⌋ : ℤ) : ℚ) + 1 := Int.lt_floor_add_one _
  simp only [round2]
  split_ifs with h1 h2 h3 <;>
    · rw [abs_le]
      constructor <;> push_cast <;> linarith

/-- C9 amended: the reported `average_ease_factor` is the arithmetic
mean rounded to two decimal places (hence within 1/200 of the mean)
whenever the snapshot is nonempty and the mean is nonzero (the `or 2.5`
coercion replaces a zero average), and it is the default 2.5 when there
are no cards. -/
theorem average_is_rounded_mean (cards : List Flashcard)
    (reviews : List FlashcardReview) (now : ℤ)
    (hne : cards ≠ []) (hnz : average_ease_factor_spec cards ≠ 0) :
    (get_study_statistics cards reviews now).average_ease_factor
        = round2 (average_ease_factor_spec cards)
    ∧ |(get_study_statistics cards reviews now).average_ease_factor
        - average_ease_factor_spec cards| ≤ 1/200
    ∧ (get_study_statistics [] reviews now).average_ease_factor = 5/2 := by
  have hlen : ¬ cards.length = 0 := by
    intro h
    exact hne (List.length_eq_zero.mp h)
  have h1 : (get_study_statistics cards reviews now).average_ease_factor
      = round2 (average_ease_factor_spec cards) := by
    simp only [get_study_statistics, average_ease_factor_spec] at *
    simp [hlen, hnz]
  refine ⟨h1, ?_, ?_⟩
  · rw [h1]
    exact round2_close _
  · norm_num [get_study_statistics, round2]

theorem average_is_rounded_mean_witness :
    statsCards ≠ ([] : List Flashcard)
    ∧ average_ease_factor_spec statsCards ≠ 0
    ∧ ((get_study_statistics statsCards [] 0).average_ease_factor
          = round2 (average_ease_factor_spec statsCards)
      ∧ |(get_study_statistics statsCards [] 0).average_ease_factor
          - average_ease_factor_spec statsCards| ≤ 1/200
      ∧ (get_study_statistics [] [] 0).average_ease_factor = 5/2) :=
  ⟨by simp [statsCards], by norm_num [average_ease_factor_spec, statsCards, mkFlashcard],
    average_is_rounded_mean statsCards [] 0 (by simp [statsCards])
      (by norm_num [average_ease_factor_spec, statsCards, mkFlashcard])⟩

end StudyGenie
